import Mathlib

/-!
Verification of the XML configuration-tree subsystem of `cndev.py`
(repository `azyablov/ndev-helpers`).

The embedding below translates the helpers at the heart of the module:
the namespace-stripping substitution `re.sub(r'\x7b.*\x7d(.*)', r'\1', tag)`,
the recursive tree printer `xml_to_tree`, the ancestor walk
`get_path_to_root`, the serializer wrapper `get_xml_str`, the filter file
loader `load_xml_filter`, and the NETCONF fetch wrapper
`get_sros_elem_config`.  External collaborators (the ncclient session and
the lxml parser) are passed in as explicit function parameters, so a
theorem can quantify over their behaviour; their calls and everything the
code prints are returned as explicit logs.
-/

namespace Cndev

/-- Whitespace set of Python `str.strip()` (space, tab, LF, CR, VT, FF). -/
def isPySpace (c : Char) : Bool :=
  c = ' ' || c = '\t' || c = '\n' || c = '\r' || c = '\x0b' || c = '\x0c'

/-- Python `str.strip()` on a character list: drop whitespace at both ends. -/
def pyStripList (cs : List Char) : List Char :=
  ((cs.dropWhile isPySpace).reverse.dropWhile isPySpace).reverse

/-- Python `str.strip()` with the default whitespace set. -/
def pyStrip (s : String) : String := ⟨pyStripList s.data⟩

/-- Python `n * s` string repetition (`n ≤ 0` gives the empty string). -/
def pyRepeat : Nat → String → String
  | 0, _ => ""
  | n + 1, s => s ++ pyRepeat n s

/-- Dropping a prefix cannot lengthen a list. -/
theorem dropWhile_len_le (p : Char → Bool) (cs : List Char) :
    (cs.dropWhile p).length ≤ cs.length := by
  induction cs with
  | nil => simp
  | cons c cs ih =>
    by_cases h : p c = true
    · rw [List.dropWhile_cons_of_pos h]
      exact Nat.le_succ_of_le ih
    · rw [List.dropWhile_cons_of_neg (by simpa using h)]

/-- `re.sub(r'\x7b.*\x7d(.*)', r'\1', ·)` on a character list, with Python
semantics: scan left to right; at a `\x7b`, the pattern matches when the
remainder of the current line (`.` does not cross a newline) holds a
`\x7d`; both `.*` are greedy, so the match runs through the last `\x7d` of
the line and group 1 catches the rest of the line; the match is replaced by
group 1 and scanning resumes after it. -/
def reSubNsList : List Char → List Char
  | [] => []
  | c :: cs =>
    if c = '\x7b' && (cs.takeWhile (fun c => c != '\n')).contains '\x7d' then
      ((cs.takeWhile (fun c => c != '\n')).reverse.takeWhile
          (fun c => c != '\x7d')).reverse
        ++ reSubNsList (cs.dropWhile (fun c => c != '\n'))
    else
      c :: reSubNsList cs
termination_by cs => cs.length
decreasing_by
  · exact Nat.lt_succ_of_le (dropWhile_len_le _ _)
  · simp

/-- The namespace-deleting substitution used at cndev.py lines 115 and 134. -/
def reSubNs (s : String) : String := ⟨reSubNsList s.data⟩

/-- Tag normalization of cndev.py lines 112–115: keep the qualified tag when
`preserve_ns` is set, otherwise delete the `\x7buri\x7d` namespace part. -/
def normalizeTag (preserve_ns : Bool) (tag : String) : String :=
  if preserve_ns then tag else reSubNs tag

/-- XML element as the helpers read it from lxml: qualified tag, optional
text (`none` models Python `None`), ordered children. -/
inductive XElem where
  | mk (tag : String) (text : Option String) (children : List XElem)

/-- Tag accessor (`x.tag`). -/
def XElem.tag : XElem → String
  | .mk t _ _ => t

/-- Text accessor (`x.text`). -/
def XElem.text : XElem → Option String
  | .mk _ x _ => x

/-- Children accessor (`x.getchildren()`). -/
def XElem.getchildren : XElem → List XElem
  | .mk _ _ c => c

/-- Python truthiness of `x.text`: not `None` and not empty. -/
def textTruthy : Option String → Bool
  | none => false
  | some s => !s.isEmpty

/-- The single line `xml_to_tree` yields for one element: the f-string at
cndev.py lines 121–122, indentation `(lvl - 1)` copies of two spaces. -/
def formatLine (lvl : Nat) (preserve_ns text_strip : Bool) (x : XElem) : String :=
  let tag := normalizeTag preserve_ns x.tag
  let text := if text_strip && textTruthy x.text then pyStrip (x.text.getD "")
              else (x.text).getD ""
  pyRepeat (lvl - 1) "  " ++ "|--Tag: " ++ tag ++
    pyRepeat (lvl - 1) "  " ++ "|  Text: " ++ text

mutual

/-- cndev.py lines 110–125: yield one line for the element, then recurse
into each child at level `lvl + 1`; the generator is modelled as the list
of the lines it yields. -/
def xml_to_tree : XElem → Nat → Bool → Bool → List String
  | .mk t x c, lvl, pns, ts =>
    formatLine lvl pns ts (.mk t x c) :: xmlToTreeChildren c (lvl + 1) pns ts

/-- The `for ch in x.getchildren(): yield from ...` loop of `xml_to_tree`. -/
def xmlToTreeChildren : List XElem → Nat → Bool → Bool → List String
  | [], _, _, _ => []
  | e :: es, lvl, pns, ts => xml_to_tree e lvl pns ts ++ xmlToTreeChildren es lvl pns ts

end

mutual

/-- Pre-order listing of the subtree, each node paired with its level
(root at the given starting level): the visit order the spec describes. -/
def preorder : XElem → Nat → List (Nat × XElem)
  | .mk t x c, lvl => (lvl, .mk t x c) :: preorderChildren c (lvl + 1)

/-- Pre-order listing of a forest of sibling subtrees, document order. -/
def preorderChildren : List XElem → Nat → List (Nat × XElem)
  | [], _ => []
  | e :: es, lvl => preorder e lvl ++ preorderChildren es lvl

end

mutual

/-- Number of nodes of an element's subtree. -/
def XElem.size : XElem → Nat
  | .mk _ _ c => 1 + sizeChildren c

/-- Number of nodes of a forest. -/
def sizeChildren : List XElem → Nat
  | [] => 0
  | e :: es => XElem.size e + sizeChildren es

end

/-- Count of leading space characters of a string. -/
def leadingSpaces (s : String) : Nat :=
  (s.data.takeWhile (fun c => c = ' ')).length

/-- Element as `get_path_to_root` reads it: a tag and the optional parent
produced by `e.getparent()`.  The inductive presentation makes the parent
chain finite, which is exactly the well-formed (acyclic) case. -/
inductive PElem where
  | mk (tag : String) (parent : Option PElem)

/-- Tag accessor (`e.tag`). -/
def PElem.tag : PElem → String
  | .mk t _ => t

/-- Parent accessor (`e.getparent()`). -/
def PElem.getparent : PElem → Option PElem
  | .mk _ p => p

/-- The ancestor name pushed at cndev.py lines 132–134:
`anc.tag.strip()` or its namespace-stripped form. -/
def ancName (preserve_ns : Bool) (t : String) : String :=
  if preserve_ns then pyStrip t else reSubNs (pyStrip t)

/-- The `while anc is not None` loop of cndev.py lines 131–135: each turn
inserts the current ancestor's name at position 0 and climbs one parent. -/
def pathLoop : Option PElem → Bool → List String → List String
  | none, _, path => path
  | some (.mk t p), pns, path => pathLoop p pns (ancName pns t :: path)

/-- cndev.py lines 128–136. -/
def get_path_to_root (e : PElem) (preserve_ns : Bool) : List String :=
  pathLoop e.getparent preserve_ns []

/-- The ancestors of an element, immediate parent first. -/
def ancestorsOpt : Option PElem → List PElem
  | none => []
  | some (.mk t p) => .mk t p :: ancestorsOpt p

/-- The ancestors of an element, immediate parent first. -/
def PElem.ancestors (e : PElem) : List PElem := ancestorsOpt e.getparent

/-- Depth of an element: the number of its proper ancestors. -/
def PElem.depth (e : PElem) : Nat := e.ancestors.length

/-- The same loop run over an arbitrary parent function, which may encode a
cyclic parent chain, with a fuel bound on the number of iterations we are
willing to observe: `none` means the loop is still running when the fuel is
exhausted. -/
def pathLoopFuel {α : Type} (parent : α → Option α) (tagOf : α → String)
    (pns : Bool) : Nat → Option α → List String → Option (List String)
  | _, none, path => some path
  | 0, some _, _ => none
  | fuel + 1, some a, path =>
    pathLoopFuel parent tagOf pns fuel (parent a) (ancName pns (tagOf a) :: path)

/-- The loop of cndev.py lines 131–135 terminates on a start state when some
finite number of iterations reaches `anc is None`. -/
def PathLoopTerminates {α : Type} (parent : α → Option α) (tagOf : α → String)
    (pns : Bool) (e : α) : Prop :=
  ∃ fuel, (pathLoopFuel parent tagOf pns fuel (parent e) []).isSome

/-- One `get_config` invocation as the session sees it: the `source` keyword
and the two components of the `filter` tuple. -/
structure GetConfigCall where
  source : String
  filterType : String
  filterBody : String
deriving DecidableEq

/-- Python-level faults the fetch helper can surface: the `TypeError` of a
`str + int` concatenation, and an `lxml.etree.XMLSyntaxError` message. -/
inductive PyErr where
  | typeError
  | xmlSyntaxError (msg : String)
deriving DecidableEq

/-- A Python value appearing in the diagnostic print of cndev.py line 179. -/
inductive PyVal where
  | str (s : String)
  | int (n : Nat)

/-- Python `+` on those values: strings concatenate, integers add, and a
mixed application raises `TypeError: can only concatenate str (not "int")
to str`. -/
def pyAdd : PyVal → PyVal → Except PyErr PyVal
  | .str a, .str b => .ok (.str (a ++ b))
  | .int a, .int b => .ok (.int (a + b))
  | _, _ => .error .typeError

/-- Python `str(·)` of such a value. -/
def pyValStr : PyVal → String
  | .str s => s
  | .int n => toString n

/-- What a call of `load_xml_filter` produces: the lines it prints and
either the filter text or the message of the raised `ValueError`. -/
structure LoadResult where
  stdout : List String
  result : Except String String

/-- Stands for the text `print(type(fh))` shows; the exact rendering is
runtime-specific and no claim depends on it. -/
def fhTypeRepr : String := "<class _io.TextIOWrapper>"

/-- cndev.py lines 144–155.  The file system is passed in as a map from a
path to its readable content, `none` covering both a missing and an
unreadable file (the `os.path.exists and os.access` test); `os.path.abspath`
is the identity on the embedded path names. -/
def load_xml_filter (fs : String → Option String) (fname : String)
    (fdir : String) : LoadResult :=
  let path_input_file := fdir ++ "/" ++ fname ++ ".xml"
  match fs path_input_file with
  | some data => ⟨["fh type: " ++ fhTypeRepr], .ok data⟩
  | none =>
    ⟨["Can't load filter " ++ fname],
     .error ("Please directory " ++ fdir ++
       " exist and intended filter present in the directory.")⟩

/-- The default subtree filter of cndev.py lines 167–169: a triple-quoted
literal that begins with a newline and indents both tags by 14 spaces. -/
def def_xml_filter : String :=
  "\n              <configure xmlns=\"urn:nokia.com:sros:ns:yang:sr:conf\">\n              </configure>"

/-- What a call of `get_sros_elem_config` produces: the `get_config` calls
it issued, the lines it printed, and the returned tree or raised fault. -/
structure FetchResult where
  calls : List GetConfigCall
  stdout : List String
  result : Except PyErr XElem

/-- cndev.py lines 158–182.  The ncclient session is the function
`nfd` from an issued call to the `data_xml` text of its response; the lxml
`etree.fromstring` with the `recover=True` parser is the function
`fromstring`, keyed by the `remove_blank_text` flag, returning the parsed
root or the message of the `XMLSyntaxError` it raises.  The `pprn` branch
reproduces line 179, whose `40 * "=" + len(title)` adds a string to an
integer. -/
def get_sros_elem_config (nfd : GetConfigCall → String)
    (fromstring : Bool → String → Except String XElem)
    (xml_filter : String) (source : String)
    (remove_blank_text : Bool) (pprn : Bool) : FetchResult :=
  let call : GetConfigCall :=
    if xml_filter ≠ "" then ⟨source, "subtree", xml_filter⟩
    else ⟨source, "subtree", def_xml_filter⟩
  let response_data := nfd call
  if pprn then
    let title := " Retrieved SROS XML config "
    let line1 := pyRepeat 20 "=" ++ title ++ pyRepeat 20 "="
    match pyAdd (.str (pyRepeat 40 "=")) (.int title.length) with
    | .error e => ⟨[call], [line1, response_data], .error e⟩
    | .ok v =>
      match fromstring remove_blank_text response_data with
      | .ok root => ⟨[call], [line1, response_data, pyValStr v], .ok root⟩
      | .error m =>
        ⟨[call], [line1, response_data, pyValStr v], .error (.xmlSyntaxError m)⟩
  else
    match fromstring remove_blank_text response_data with
    | .ok root => ⟨[call], [], .ok root⟩
    | .error m => ⟨[call], [], .error (.xmlSyntaxError m)⟩

/-- Escaping of one text character as `etree.tostring` performs it. -/
def escChar (c : Char) : List Char :=
  if c = '&' then ['&', 'a', 'm', 'p', ';']
  else if c = '<' then ['&', 'l', 't', ';']
  else if c = '>' then ['&', 'g', 't', ';']
  else [c]

/-- Escaping of element text. -/
def escList (cs : List Char) : List Char := cs.flatMap escChar

mutual

/-- The serialization `etree.tostring` emits for the modelled element
structure: a self-closed tag for an element with neither text nor children,
otherwise the open tag, the escaped text, the serialized children and the
matching close tag. -/
def serElem : XElem → List Char
  | .mk t x c =>
    if (x.getD "").data.isEmpty && c.isEmpty then
      '<' :: (t.data ++ ['/', '>'])
    else
      '<' :: (t.data ++ '>' :: (escList (x.getD "").data ++
        (serChildren c ++ ('<' :: '/' :: (t.data ++ ['>'])))))

/-- Serialization of a forest, document order. -/
def serChildren : List XElem → List Char
  | [] => []
  | e :: es => serElem e ++ serChildren es

end

/-- cndev.py lines 138–142: `etree.tostring(e).decode()`, optionally echoed
with `pprint`; returns the printed lines and the serialized string. -/
def get_xml_str (e : XElem) (pprn : Bool) : List String × String :=
  let rstr : String := ⟨serElem e⟩
  (if pprn then [rstr] else [], rstr)

/-- A character that may appear in a serialized tag name: the re-parser
reads a name up to whitespace, `<`, `>`, `/` or `&`. -/
def nameChar (c : Char) : Bool :=
  !(c = '<' || c = '>' || c = '/' || c = '&' || isPySpace c)

/-- Text scan of the re-parser: read up to the next `<`, decoding the three
entities the serializer emits; fail on a truncated document or a stray
ampersand. -/
def parseText : List Char → Option (List Char × List Char)
  | [] => none
  | c :: rest =>
    if c = '<' then some ([], c :: rest)
    else if c = '&' then
      match rest with
      | 'a' :: 'm' :: 'p' :: ';' :: r => (parseText r).map (fun p => ('&' :: p.1, p.2))
      | 'l' :: 't' :: ';' :: r => (parseText r).map (fun p => ('<' :: p.1, p.2))
      | 'g' :: 't' :: ';' :: r => (parseText r).map (fun p => ('>' :: p.1, p.2))
      | _ => none
    else (parseText rest).map (fun p => (c :: p.1, p.2))

/-- Expect a literal character sequence and return the input after it. -/
def expectChars : List Char → List Char → Option (List Char)
  | [], input => some input
  | _ :: _, [] => none
  | c :: cs, d :: input => if c = d then expectChars cs input else none

mutual

/-- Re-parsing one element, fuel-bounded: the inverse reading of the
serialization above, which models handing the serialized string back to
`etree.fromstring`.  Empty parsed text stands for Python `None`. -/
def parseElem : Nat → List Char → Option (XElem × List Char)
  | 0, _ => none
  | _ + 1, [] => none
  | fuel + 1, c :: rest =>
    if c = '<' then
      if (rest.takeWhile nameChar).isEmpty then none
      else
        match rest.dropWhile nameChar with
        | '/' :: '>' :: rest2 => some (.mk ⟨rest.takeWhile nameChar⟩ none [], rest2)
        | '>' :: rest2 =>
          match parseText rest2 with
          | none => none
          | some (txt, rest3) =>
            match parseElems fuel rest3 with
            | none => none
            | some (kids, rest4) =>
              match expectChars ('<' :: '/' :: (rest.takeWhile nameChar ++ ['>'])) rest4 with
              | none => none
              | some rest5 =>
                some (.mk ⟨rest.takeWhile nameChar⟩
                  (if txt.isEmpty then none else some ⟨txt⟩) kids, rest5)
        | _ => none
    else none

/-- Re-parsing a sequence of sibling elements until a close tag begins. -/
def parseElems : Nat → List Char → Option (List XElem × List Char)
  | 0, _ => none
  | fuel + 1, input =>
    if input.take 2 = ['<', '/'] then some ([], input)
    else
      match parseElem fuel input with
      | none => none
      | some (e, r) =>
        match parseElems fuel r with
        | none => none
        | some (es, r2) => some (e :: es, r2)

end

/-- Re-parsing a whole document: one element consuming the entire string. -/
def parseXml (s : String) : Option XElem :=
  match parseElem (s.data.length + 1) s.data with
  | some (e, []) => some e
  | _ => none

/-- A tag the serializer can reproduce: nonempty and made of name
characters.  Every tag lxml accepts when parsing a document satisfies
this. -/
def validTag (t : String) : Bool := !t.data.isEmpty && t.data.all nameChar

/-- Text as it comes out of a parse: never the explicit empty string,
which lxml renders as `None`. -/
def textOk : Option String → Bool
  | none => true
  | some s => !s.data.isEmpty

mutual

/-- The parsed-element invariant: valid tags and no explicit empty text,
throughout the subtree. -/
def wfElem : XElem → Bool
  | .mk t x c => validTag t && textOk x && wfChildren c

/-- The parsed-element invariant over a forest. -/
def wfChildren : List XElem → Bool
  | [] => true
  | e :: es => wfElem e && wfChildren es

end

mutual

/-- Fuel measure of an element for the re-parser. -/
def mElem : XElem → Nat
  | .mk _ _ c => 1 + mChildren c

/-- Fuel measure of a forest for the re-parser. -/
def mChildren : List XElem → Nat
  | [] => 1
  | e :: es => 1 + mElem e + mChildren es

end

/-! ## General list helpers -/

/-- A `takeWhile` scan runs through a satisfying block and stops at the
first failing element. -/
theorem takeWhile_append_stop {α : Type} (p : α → Bool) (l : List α) (d : α)
    (r : List α) (hl : ∀ c ∈ l, p c = true) (hd : p d = false) :
    (l ++ d :: r).takeWhile p = l := by
  induction l with
  | nil => simp [List.takeWhile_cons, hd]
  | cons a l ih =>
    have ha : p a = true := hl a (List.mem_cons_self a l)
    simp only [List.cons_append, List.takeWhile_cons, ha, if_true]
    exact congrArg (a :: ·) (ih fun c hc => hl c (List.mem_cons_of_mem a hc))

/-- A `dropWhile` scan drops a satisfying block and stops at the first
failing element. -/
theorem dropWhile_append_stop {α : Type} (p : α → Bool) (l : List α) (d : α)
    (r : List α) (hl : ∀ c ∈ l, p c = true) (hd : p d = false) :
    (l ++ d :: r).dropWhile p = d :: r := by
  induction l with
  | nil => simp [List.dropWhile_cons, hd]
  | cons a l ih =>
    have ha : p a = true := hl a (List.mem_cons_self a l)
    simp only [List.cons_append, List.dropWhile_cons, ha, if_true]
    exact ih fun c hc => hl c (List.mem_cons_of_mem a hc)

/-! ## Claim C7 — the namespace normalizer -/

/-- On a character list without `\x7b`, the substitution changes nothing. -/
theorem reSubNsList_no_brace (cs : List Char) (h : '\x7b' ∉ cs) :
    reSubNsList cs = cs := by
  induction cs with
  | nil => simp [reSubNsList]
  | cons c cs ih =>
    have hc : c ≠ '\x7b' := fun hcc => h (hcc ▸ List.mem_cons_self c cs)
    simp [reSubNsList, hc, ih fun hm => h (List.mem_cons_of_mem c hm)]

/-- On `\x7buri\x7dname` with a brace-free, newline-free `uri` and a
`\x7d`-free, newline-free `name`, the substitution returns `name`. -/
theorem reSubNsList_braced (uri nm : List Char)
    (hu2 : '\n' ∉ uri)
    (hn1 : '\x7d' ∉ nm) (hn2 : '\n' ∉ nm) :
    reSubNsList ('\x7b' :: (uri ++ '\x7d' :: nm)) = nm := by
  have hline : (uri ++ '\x7d' :: nm).takeWhile (fun c => c != '\n')
      = uri ++ '\x7d' :: nm := by
    rw [List.takeWhile_eq_self_iff]
    intro c hc
    rcases List.mem_append.mp hc with h | h
    · exact bne_iff_ne.mpr fun hcc => hu2 (hcc ▸ h)
    · rcases List.mem_cons.mp h with h | h
      · simp [h]
      · exact bne_iff_ne.mpr fun hcc => hn2 (hcc ▸ h)
  have hdrop : (uri ++ '\x7d' :: nm).dropWhile (fun c => c != '\n') = [] := by
    rw [List.dropWhile_eq_nil_iff]
    intro c hc
    rcases List.mem_append.mp hc with h | h
    · exact bne_iff_ne.mpr fun hcc => hu2 (hcc ▸ h)
    · rcases List.mem_cons.mp h with h | h
      · simp [h]
      · exact bne_iff_ne.mpr fun hcc => hn2 (hcc ▸ h)
  have hcont : (uri ++ '\x7d' :: nm).contains '\x7d' = true := by
    simp [List.contains]
  have hgroup : (List.takeWhile (fun c => c != '\x7d')
      (nm.reverse ++ '\x7d' :: uri.reverse)).reverse = nm := by
    have htw : List.takeWhile (fun c => c != '\x7d')
        (nm.reverse ++ '\x7d' :: uri.reverse) = nm.reverse :=
      takeWhile_append_stop _ _ _ _
        (fun c hc => bne_iff_ne.mpr fun hcc =>
          hn1 (by rw [← hcc]; exact List.mem_reverse.mp hc))
        (by simp)
    rw [htw, List.reverse_reverse]
  simp [reSubNsList, hline, hcont, hdrop, hgroup]

/-- Claim C7: with `preserve_ns = false` the normalizer turns
`\x7buri\x7dname` into `name` (the hypotheses only exclude a `\x7d` or a
newline inside the two parts, slightly less than the claim's "no braces"),
leaves a tag without `\x7b` unchanged, and with `preserve_ns = true` it is
the identity. -/
theorem C7_namespace_normalizer (uri nm tag : String)
    (hu2 : '\n' ∉ uri.data)
    (hn1 : '\x7d' ∉ nm.data) (hn2 : '\n' ∉ nm.data)
    (ht : '\x7b' ∉ tag.data) :
    normalizeTag false ("\x7b" ++ uri ++ "\x7d" ++ nm) = nm
    ∧ normalizeTag false tag = tag
    ∧ normalizeTag true tag = tag := by
  refine ⟨?_, ?_, rfl⟩
  · have hdata : ("\x7b" ++ uri ++ "\x7d" ++ nm).data
        = '\x7b' :: (uri.data ++ '\x7d' :: nm.data) := by
      simp [String.data_append]
    show reSubNs ("\x7b" ++ uri ++ "\x7d" ++ nm) = nm
    rw [reSubNs, hdata, reSubNsList_braced uri.data nm.data hu2 hn1 hn2]
  · show reSubNs tag = tag
    rw [reSubNs, reSubNsList_no_brace tag.data ht]

/-- Claim C7 witness: the normalizer at the vendor namespace and a bare
tag. -/
theorem C7_namespace_normalizer_witness :
    normalizeTag false
        ("\x7b" ++ "urn:nokia.com:sros:ns:yang:sr:conf" ++ "\x7d" ++ "configure")
      = "configure"
    ∧ normalizeTag false "interface" = "interface"
    ∧ normalizeTag true "interface" = "interface" :=
  C7_namespace_normalizer "urn:nokia.com:sros:ns:yang:sr:conf" "configure"
    "interface" (by decide) (by decide) (by decide) (by decide)

/-! ## Claim C4 — the ancestor path resolver -/

/-- The loop of `get_path_to_root` prepends the names of the remaining
ancestors, root first, to the accumulated path. -/
theorem pathLoop_eq : ∀ (op : Option PElem) (pns : Bool) (path : List String),
    pathLoop op pns path
      = (ancestorsOpt op).reverse.map (fun a => ancName pns a.tag) ++ path
  | none, _, _ => by simp [pathLoop, ancestorsOpt]
  | some (.mk t p), pns, path => by
    rw [pathLoop, ancestorsOpt, pathLoop_eq p pns _]
    simp [PElem.tag]

/-- Claim C4: on a root element the resolver returns the empty list, and on
any element it returns one name per ancestor — depth many — ordered from
the document root down to the immediate parent, the element's own tag
excluded. -/
theorem C4_ancestor_path (t : String) (pns : Bool) (e : PElem) :
    get_path_to_root (.mk t none) pns = []
    ∧ (get_path_to_root e pns).length = e.depth
    ∧ get_path_to_root e pns
        = e.ancestors.reverse.map (fun a => ancName pns a.tag) := by
  refine ⟨?_, ?_, ?_⟩
  · simp [get_path_to_root, PElem.getparent, pathLoop]
  · rw [get_path_to_root, pathLoop_eq]
    simp [PElem.depth, PElem.ancestors]
  · rw [get_path_to_root, pathLoop_eq]
    simp [PElem.ancestors]

/-! ## Claim C5 — behaviour of the resolver loop on a parent cycle -/

/-- On a self-looping parent function the loop of cndev.py lines 131–135
is still running whatever iteration budget it is given. -/
theorem pathLoopFuel_self_loop (fuel : Nat) (path : List String) :
    pathLoopFuel (fun _ : Unit => some ()) (fun _ => "configure") false fuel
      (some ()) path = none := by
  induction fuel generalizing path with
  | zero => rfl
  | succ n ih => rw [pathLoopFuel]; exact ih _

/-- Claim C5 counterexample: an element whose parent chain is a cycle (it
is its own parent) makes the resolver loop forever — no finite number of
iterations reaches the exit test, so the loop does not terminate, against
the claim that it must. -/
theorem C5_counterexample :
    ¬ PathLoopTerminates (fun _ : Unit => some ()) (fun _ => "configure")
        false () := by
  rintro ⟨fuel, h⟩
  rw [show (fun _ : Unit => some ()) () = some () from rfl,
    pathLoopFuel_self_loop fuel []] at h
  exact Bool.false_ne_true h

/-- The loop reaches the exit test on an acyclic chain after exactly one
iteration per ancestor, returning what `get_path_to_root` returns. -/
theorem pathLoopFuel_complete : ∀ (op : Option PElem) (pns : Bool)
    (path : List String),
    pathLoopFuel PElem.getparent PElem.tag pns (ancestorsOpt op).length op path
      = some (pathLoop op pns path)
  | none, _, _ => by simp [ancestorsOpt, pathLoopFuel, pathLoop]
  | some (.mk t p), pns, path => by
    rw [ancestorsOpt, List.length_cons, pathLoopFuel, pathLoop]
    exact pathLoopFuel_complete p pns _

/-- Claim C5 (amended): the resolver terminates on every element whose
parent chain is finite (acyclic) — the well-formed case — returning the
ancestor path; the loop has no cycle detection, and `C5_counterexample`
shows a cyclic chain makes it spin forever rather than fail fast. -/
theorem C5_acyclic_loop_terminates (e : PElem) (pns : Bool) :
    ∃ fuel, pathLoopFuel PElem.getparent PElem.tag pns fuel e.getparent []
      = some (get_path_to_root e pns) :=
  ⟨(ancestorsOpt e.getparent).length, pathLoopFuel_complete e.getparent pns []⟩

/-! ## Claim C3 — the tree printer -/

mutual

/-- The yielded lines are the formatted pre-order listing of the subtree. -/
theorem xml_to_tree_eq_preorder : ∀ (x : XElem) (lvl : Nat) (pns ts : Bool),
    xml_to_tree x lvl pns ts
      = (preorder x lvl).map (fun p => formatLine p.1 pns ts p.2)
  | .mk t x c, lvl, pns, ts => by
    rw [xml_to_tree, preorder, List.map_cons]
    exact congrArg _ (xmlToTreeChildren_eq_preorder c (lvl + 1) pns ts)

/-- The lines yielded for a forest are its formatted pre-order listing. -/
theorem xmlToTreeChildren_eq_preorder : ∀ (l : List XElem) (lvl : Nat)
    (pns ts : Bool),
    xmlToTreeChildren l lvl pns ts
      = (preorderChildren l lvl).map (fun p => formatLine p.1 pns ts p.2)
  | [], _, _, _ => rfl
  | e :: es, lvl, pns, ts => by
    rw [xmlToTreeChildren, preorderChildren, List.map_append,
      xml_to_tree_eq_preorder e lvl pns ts,
      xmlToTreeChildren_eq_preorder es lvl pns ts]

end

mutual

/-- The pre-order listing has one entry per node of the subtree. -/
theorem preorder_length : ∀ (x : XElem) (lvl : Nat),
    (preorder x lvl).length = x.size
  | .mk t x c, lvl => by
    rw [preorder, XElem.size, List.length_cons, preorderChildren_length c,
      Nat.add_comm]

/-- The pre-order listing of a forest has one entry per node. -/
theorem preorderChildren_length : ∀ (l : List XElem) (lvl : Nat),
    (preorderChildren l lvl).length = sizeChildren l
  | [], _ => rfl
  | e :: es, lvl => by
    rw [preorderChildren, sizeChildren, List.length_append,
      preorder_length e lvl, preorderChildren_length es lvl]

end

/-- `pyRepeat n "  "` is `2 * n` spaces. -/
theorem pyRepeat_two_spaces (n : Nat) :
    (pyRepeat n "  ").data = List.replicate (2 * n) ' ' := by
  induction n with
  | zero => rfl
  | succ n ih =>
    rw [pyRepeat, String.data_append, ih]
    show ' ' :: ' ' :: List.replicate (2 * n) ' ' = _
    rw [Nat.mul_succ, ← List.replicate_succ, ← List.replicate_succ]

/-- A printed line starts with exactly `2 * (lvl - 1)` spaces: the two-space
indent units, immediately closed off by the `|` of the tag marker. -/
theorem leadingSpaces_formatLine (lvl : Nat) (pns ts : Bool) (x : XElem) :
    leadingSpaces (formatLine lvl pns ts x) = 2 * (lvl - 1) := by
  have hdata : (formatLine lvl pns ts x).data
      = List.replicate (2 * (lvl - 1)) ' '
        ++ '|' :: ("--Tag: ".data ++ (normalizeTag pns x.tag).data
          ++ (pyRepeat (lvl - 1) "  ").data ++ "|  Text: ".data
          ++ (if ts && textTruthy x.text then pyStrip (x.text.getD "")
              else (x.text).getD "").data) := by
    simp [formatLine, String.data_append, pyRepeat_two_spaces]
  rw [leadingSpaces, hdata, takeWhile_append_stop _ _ _ _
    (fun c hc => by
      have := List.eq_of_mem_replicate hc
      simp [this])
    (by decide), List.length_replicate]

/-- Claim C3: the printer yields exactly one line per node of a finite
tree, in pre-order — root first, then each child's subtree in document
order, the order `preorder` lists — and the line of a node at level `lvl`
(root at level 1) begins with exactly `lvl - 1` two-space units, the next
character being the `|` marker. -/
theorem C3_tree_printer (x : XElem) (pns ts : Bool) :
    (xml_to_tree x 1 pns ts).length = x.size
    ∧ xml_to_tree x 1 pns ts
        = (preorder x 1).map (fun p => formatLine p.1 pns ts p.2)
    ∧ ∀ p ∈ preorder x 1,
        leadingSpaces (formatLine p.1 pns ts p.2) = 2 * (p.1 - 1) :=
  ⟨by rw [xml_to_tree_eq_preorder, List.length_map, preorder_length],
   xml_to_tree_eq_preorder x 1 pns ts,
   fun p _ => leadingSpaces_formatLine p.1 pns ts p.2⟩

/-! ## Claims C1, C2, C9, C10 — the config fetcher -/

/-- All whitespace removed; two strings equal under this map carry the
same markup characters in the same order. -/
def stripAllWs (s : String) : String := ⟨s.data.filter (fun c => !isPySpace c)⟩

/-- A stub session answering every call with a fixed well-formed payload. -/
def stubSession : GetConfigCall → String :=
  fun _ => "<configure xmlns=\"urn:nokia.com:sros:ns:yang:sr:conf\"><x>1</x></configure>"

/-- A stub session whose response payload is empty, hence unparseable. -/
def stubSessionEmpty : GetConfigCall → String := fun _ => ""

/-- A stub recover-parse that succeeds with the tree of `stubSession`'s
payload. -/
def stubParseOk : Bool → String → Except String XElem :=
  fun _ _ => .ok (.mk "configure" none [.mk "x" (some "1") []])

/-- A stub recover-parse failing the way lxml fails on an empty document:
`XMLSyntaxError: Document is empty`. -/
def stubParseFail : Bool → String → Except String XElem :=
  fun _ _ => .error "Document is empty"

/-- Whatever the session, the parser and the flags, one fetch issues
exactly one `get_config` call, selected by the truthiness of the filter
argument. -/
theorem get_sros_calls (nfd : GetConfigCall → String)
    (fromstring : Bool → String → Except String XElem)
    (f d : String) (rbt pprn : Bool) :
    (get_sros_elem_config nfd fromstring f d rbt pprn).calls
      = [if f ≠ "" then ⟨d, "subtree", f⟩ else ⟨d, "subtree", def_xml_filter⟩] := by
  unfold get_sros_elem_config
  cases pprn <;> dsimp only <;>
    cases fromstring rbt (nfd (if f ≠ "" then ⟨d, "subtree", f⟩
      else ⟨d, "subtree", def_xml_filter⟩)) <;> rfl

/-- Claim C1: a fetch with a non-empty filter string invokes `get_config`
exactly once, with the given datastore and the tuple `("subtree", f)`. -/
theorem C1_explicit_filter_call (nfd : GetConfigCall → String)
    (fromstring : Bool → String → Except String XElem)
    (f d : String) (rbt pprn : Bool) (hf : f ≠ "") :
    (get_sros_elem_config nfd fromstring f d rbt pprn).calls
      = [⟨d, "subtree", f⟩] := by
  rw [get_sros_calls, if_pos hf]

/-- Claim C1 witness: the fetch of the claim's end-to-end example, filter
`"<interface/>"` against datastore `"candidate"`. -/
theorem C1_explicit_filter_call_witness :
    (get_sros_elem_config stubSession stubParseOk "<interface/>" "candidate"
        false false).calls = [⟨"candidate", "subtree", "<interface/>"⟩] :=
  C1_explicit_filter_call stubSession stubParseOk "<interface/>" "candidate"
    false false (by decide)

/-- Claim C2 counterexample: the built-in default filter is not the literal
the claim states — the source is a triple-quoted string carrying a leading
newline and 14 spaces of indentation before each tag. -/
theorem C2_counterexample :
    def_xml_filter
      ≠ "<configure xmlns=\"urn:nokia.com:sros:ns:yang:sr:conf\"></configure>" := by
  decide

/-- Claim C2 (amended): a fetch with an empty filter string invokes
`get_config` once with the built-in default filter, whose text is the
claimed literal padded with a leading newline and 14-space indentation
before each tag — character for character equal to the claimed literal
once whitespace is discarded. -/
theorem C2_default_filter (nfd : GetConfigCall → String)
    (fromstring : Bool → String → Except String XElem)
    (d : String) (rbt pprn : Bool) :
    (get_sros_elem_config nfd fromstring "" d rbt pprn).calls
      = [⟨d, "subtree", def_xml_filter⟩]
    ∧ stripAllWs def_xml_filter
      = stripAllWs "<configure xmlns=\"urn:nokia.com:sros:ns:yang:sr:conf\"></configure>" := by
  constructor
  · rw [get_sros_calls]
    simp
  · decide

/-- Claim C9 counterexample: a fetch whose payload fails to parse surfaces
the parser's own error — here lxml's "Document is empty" — which names
neither the datastore `"candidate"` nor the filter `"<interface/>"` of the
request; no `MalformedConfigResponse` wrapping exists in the code. -/
theorem C9_counterexample :
    (get_sros_elem_config stubSessionEmpty stubParseFail "<interface/>"
        "candidate" false false).result
      = .error (.xmlSyntaxError "Document is empty")
    ∧ ¬ ("candidate".data <:+: "Document is empty".data)
    ∧ ¬ ("<interface/>".data <:+: "Document is empty".data) :=
  ⟨rfl, by decide, by decide⟩

/-- Claim C9 (amended): when the response payload fails to parse, the fetch
propagates the parser's error text unchanged — it adds no context naming
the datastore or the filter. -/
theorem C9_parse_error_propagates (nfd : GetConfigCall → String)
    (fromstring : Bool → String → Except String XElem)
    (f d : String) (rbt : Bool) (m : String)
    (h : fromstring rbt (nfd (if f ≠ "" then ⟨d, "subtree", f⟩
        else ⟨d, "subtree", def_xml_filter⟩)) = .error m) :
    (get_sros_elem_config nfd fromstring f d rbt false).result
      = .error (.xmlSyntaxError m) := by
  unfold get_sros_elem_config
  dsimp only
  rw [h]
  rfl

/-- Claim C9 witness: the amended propagation at the empty-payload stub. -/
theorem C9_parse_error_propagates_witness :
    (get_sros_elem_config stubSessionEmpty stubParseFail "<interface/>"
        "candidate" false false).result
      = .error (.xmlSyntaxError "Document is empty") :=
  C9_parse_error_propagates stubSessionEmpty stubParseFail "<interface/>"
    "candidate" false "Document is empty" rfl

/-- Claim C10: the `pprn` flag is not a pure diagnostic — line 179 adds the
string `40 * "="` to the integer `len(title)`, so every fetch with
`pprn = true` raises `TypeError` before parsing, while the identical fetch
with `pprn = false` returns the parsed tree. -/
theorem C10_pprn_type_error (nfd : GetConfigCall → String)
    (fromstring : Bool → String → Except String XElem)
    (f d : String) (rbt : Bool) :
    (get_sros_elem_config nfd fromstring f d rbt true).result
      = .error .typeError
    ∧ (get_sros_elem_config stubSession stubParseOk "" "running" false
        false).result = .ok (.mk "configure" none [.mk "x" (some "1") []]) :=
  ⟨rfl, rfl⟩

/-! ## Claim C8 — the filter loader -/

set_option maxRecDepth 8192 in
/-- Claim C8 counterexample: on a missing filter file the raised error text
names the directory but neither the filter name `"interface"` nor the
resolved file `"sros_nf_filters/interface.xml"`. -/
theorem C8_counterexample :
    (load_xml_filter (fun _ => none) "interface" "sros_nf_filters").result
      = .error "Please directory sros_nf_filters exist and intended filter present in the directory."
    ∧ ¬ ("interface".data <:+:
        "Please directory sros_nf_filters exist and intended filter present in the directory.".data)
    ∧ ¬ ("sros_nf_filters/interface.xml".data <:+:
        "Please directory sros_nf_filters exist and intended filter present in the directory.".data) :=
  ⟨rfl, by decide, by decide⟩

/-- Claim C8 (amended): when the resolved file is missing or unreadable the
loader raises an error naming the expected directory, while the missing
filter's name appears only in the diagnostic line printed to standard
output, not in the error. -/
theorem C8_filter_missing (fs : String → Option String) (fname fdir : String)
    (h : fs (fdir ++ "/" ++ fname ++ ".xml") = none) :
    (load_xml_filter fs fname fdir).result
      = .error ("Please directory " ++ fdir ++
          " exist and intended filter present in the directory.")
    ∧ fdir.data <:+: ("Please directory " ++ fdir ++
        " exist and intended filter present in the directory.").data
    ∧ (load_xml_filter fs fname fdir).stdout = ["Can't load filter " ++ fname]
    ∧ fname.data <:+: ("Can't load filter " ++ fname).data := by
  refine ⟨?_, ?_, ?_, ?_⟩
  · simp [load_xml_filter, h]
  · exact ⟨"Please directory ".data,
      " exist and intended filter present in the directory.".data,
      by simp [String.data_append]⟩
  · simp [load_xml_filter, h]
  · exact ⟨"Can't load filter ".data, [], by simp [String.data_append]⟩

/-- Claim C8 witness: the amended behaviour at an empty file system and the
filter name `"interface"`. -/
theorem C8_filter_missing_witness :
    (load_xml_filter (fun _ => none) "interface" "sros_nf_filters").result
      = .error ("Please directory " ++ "sros_nf_filters" ++
          " exist and intended filter present in the directory.")
    ∧ "sros_nf_filters".data <:+: ("Please directory " ++ "sros_nf_filters" ++
        " exist and intended filter present in the directory.").data
    ∧ (load_xml_filter (fun _ => none) "interface" "sros_nf_filters").stdout
      = ["Can't load filter " ++ "interface"]
    ∧ "interface".data <:+: ("Can't load filter " ++ "interface").data :=
  C8_filter_missing (fun _ => none) "interface" "sros_nf_filters" rfl

/-! ## Claim C6 — serialization round trip -/

/-- Escaping distributes over cons. -/
theorem escList_cons (c : Char) (cs : List Char) :
    escList (c :: cs) = escChar c ++ escList cs := by
  simp [escList]

/-- An unescaped character passes the escaper unchanged. -/
theorem escChar_plain (c : Char) (h1 : c ≠ '&') (h2 : c ≠ '<') (h3 : c ≠ '>') :
    escChar c = [c] := by
  simp [escChar, h1, h2, h3]

/-- The text scan stops at an opening angle bracket without consuming. -/
theorem parseText_lt (rest : List Char) :
    parseText ('<' :: rest) = some ([], '<' :: rest) := by
  rw [parseText.eq_def]
  simp

/-- The text scan takes one plain character and continues. -/
theorem parseText_plain (c : Char) (rest : List Char)
    (h1 : c ≠ '<') (h2 : c ≠ '&') :
    parseText (c :: rest) = (parseText rest).map (fun p => (c :: p.1, p.2)) := by
  rw [parseText.eq_def]
  simp [h1, h2]

/-- The text scan decodes an ampersand entity. -/
theorem parseText_amp (r : List Char) :
    parseText ('&' :: 'a' :: 'm' :: 'p' :: ';' :: r)
      = (parseText r).map (fun p => ('&' :: p.1, p.2)) := by
  simp [parseText]

/-- The text scan decodes a less-than entity. -/
theorem parseText_lt_entity (r : List Char) :
    parseText ('&' :: 'l' :: 't' :: ';' :: r)
      = (parseText r).map (fun p => ('<' :: p.1, p.2)) := by
  simp [parseText]

/-- The text scan decodes a greater-than entity. -/
theorem parseText_gt_entity (r : List Char) :
    parseText ('&' :: 'g' :: 't' :: ';' :: r)
      = (parseText r).map (fun p => ('>' :: p.1, p.2)) := by
  simp [parseText]

/-- Escaping round-trips through the text scan: the scan recovers the
original text and stops exactly at the following tag. -/
theorem parseText_escList (s : List Char) (r : List Char) :
    parseText (escList s ++ '<' :: r) = some (s, '<' :: r) := by
  induction s with
  | nil => simpa [escList] using parseText_lt r
  | cons c cs ih =>
    by_cases h1 : c = '&'
    · subst h1
      rw [escList_cons, show escChar '&' = ['&', 'a', 'm', 'p', ';'] from rfl]
      simp only [List.cons_append, List.append_assoc, List.nil_append]
      rw [parseText_amp, ih]
      rfl
    · by_cases h2 : c = '<'
      · subst h2
        rw [escList_cons, show escChar '<' = ['&', 'l', 't', ';'] from rfl]
        simp only [List.cons_append, List.append_assoc, List.nil_append]
        rw [parseText_lt_entity, ih]
        rfl
      · by_cases h3 : c = '>'
        · subst h3
          rw [escList_cons, show escChar '>' = ['&', 'g', 't', ';'] from rfl]
          simp only [List.cons_append, List.append_assoc, List.nil_append]
          rw [parseText_gt_entity, ih]
          rfl
        · rw [escList_cons, escChar_plain c h1 h2 h3]
          simp only [List.cons_append, List.singleton_append, List.nil_append]
          rw [parseText_plain c _ h2 h1, ih]
          rfl

/-- Expecting a literal block succeeds exactly on that block. -/
theorem expectChars_append (s r : List Char) : expectChars s (s ++ r) = some r := by
  induction s with
  | nil => rfl
  | cons c cs ih => simp [expectChars, ih]

/-- The components of the parsed-element invariant at a node. -/
theorem wfElem_parts (t : String) (x : Option String) (c : List XElem)
    (h : wfElem (.mk t x c) = true) :
    validTag t = true ∧ textOk x = true ∧ wfChildren c = true := by
  rw [wfElem, Bool.and_eq_true, Bool.and_eq_true] at h
  exact ⟨h.1.1, h.1.2, h.2⟩

/-- The components of the parsed-element invariant over a forest. -/
theorem wfChildren_parts (e : XElem) (es : List XElem)
    (h : wfChildren (e :: es) = true) :
    wfElem e = true ∧ wfChildren es = true := by
  rw [wfChildren] at h
  simpa [Bool.and_eq_true] using h

/-- A serialized element starts with `<` followed by a name character. -/
theorem serElem_shape : ∀ (e : XElem), wfElem e = true →
    ∃ hd tl, serElem e = '<' :: hd :: tl ∧ nameChar hd = true
  | .mk t x c, h => by
    obtain ⟨hvt, _, _⟩ := wfElem_parts t x c h
    rw [validTag, Bool.and_eq_true] at hvt
    obtain ⟨hne, hall⟩ := hvt
    rcases ht : t.data with _ | ⟨th, tt⟩
    · rw [ht] at hne
      simp at hne
    · have hth : nameChar th = true := by
        have := List.all_eq_true.mp hall th
        rw [ht] at this
        exact this (List.mem_cons_self th tt)
      rw [serElem]
      by_cases hcond : ((x.getD "").data.isEmpty && c.isEmpty) = true
      · exact ⟨th, tt ++ ['/', '>'], by rw [if_pos hcond, ht]; simp, hth⟩
      · refine ⟨th, tt ++ '>' :: (escList (x.getD "").data ++
          (serChildren c ++ ('<' :: '/' :: (t.data ++ ['>'])))), ?_, hth⟩
        rw [if_neg hcond, ht]
        simp

/-- A forest followed by a tag is itself `<`-headed. -/
theorem serChildren_lt_head (l : List XElem) (hl : wfChildren l = true)
    (q : List Char) :
    ∃ r0, serChildren l ++ '<' :: q = '<' :: r0 := by
  cases l with
  | nil => exact ⟨q, by rw [serChildren]; rfl⟩
  | cons e es =>
    obtain ⟨hd, tl, hse, _⟩ := serElem_shape e (wfChildren_parts e es hl).1
    refine ⟨hd :: tl ++ (serChildren es ++ '<' :: q), ?_⟩
    rw [serChildren, hse]
    simp

/-- Every element weighs at least one unit of fuel. -/
theorem mElem_pos (e : XElem) : 1 ≤ mElem e := by
  cases e
  rw [mElem]
  omega

/-- Every forest weighs at least one unit of fuel. -/
theorem mChildren_pos (l : List XElem) : 1 ≤ mChildren l := by
  cases l with
  | nil => simp [mChildren]
  | cons e es => rw [mChildren]; omega

mutual

/-- The fuel weight of an element is dominated by its serialized length. -/
theorem mElem_le : ∀ (e : XElem), wfElem e = true →
    mElem e + 2 ≤ (serElem e).length
  | .mk t x c, h => by
    obtain ⟨hvt, _, hwc⟩ := wfElem_parts t x c h
    have hne : t.data.length ≥ 1 := by
      rw [validTag, Bool.and_eq_true] at hvt
      have := hvt.1
      cases hd : t.data
      · rw [hd] at this
        simp at this
      · simp [hd]
    rw [mElem, serElem]
    by_cases hcond : ((x.getD "").data.isEmpty && c.isEmpty) = true
    · rw [if_pos hcond]
      have hcnil : c = [] := by
        rcases c with _ | _
        · rfl
        · simp at hcond
      subst hcnil
      rw [mChildren]
      simp only [List.length_cons, List.length_append]
      omega
    · rw [if_neg hcond]
      have := mChildren_le c hwc
      simp only [List.length_cons, List.length_append]
      omega

/-- The fuel weight of a forest is dominated by its serialized length. -/
theorem mChildren_le : ∀ (l : List XElem), wfChildren l = true →
    mChildren l ≤ (serChildren l).length + 1
  | [], _ => by
    rw [mChildren, serChildren]
    simp
  | e :: es, h => by
    obtain ⟨he, hes⟩ := wfChildren_parts e es h
    have h1 := mElem_le e he
    have h2 := mChildren_le es hes
    rw [mChildren, serChildren, List.length_append]
    omega

end

/-- With enough fuel the re-parser inverts the serializer: a serialized
element followed by any tail parses back to that element, and a serialized
forest followed by a close tag parses back to that forest. -/
theorem parse_ser (fuel : Nat) :
    (∀ (e : XElem) (rest : List Char), wfElem e = true → mElem e ≤ fuel →
        parseElem fuel (serElem e ++ rest) = some (e, rest))
    ∧ (∀ (l : List XElem) (r : List Char), wfChildren l = true →
        mChildren l ≤ fuel →
        parseElems fuel (serChildren l ++ '<' :: '/' :: r)
          = some (l, '<' :: '/' :: r)) := by
  induction fuel with
  | zero =>
    constructor
    · intro e rest _ hm
      exact absurd hm (by have := mElem_pos e; omega)
    · intro l r _ hm
      exact absurd hm (by have := mChildren_pos l; omega)
  | succ fuel ih =>
    obtain ⟨ihE, ihL⟩ := ih
    constructor
    · rintro ⟨t, x, c⟩ rest hwf hm
      obtain ⟨hvt, htx, hwc⟩ := wfElem_parts t x c hwf
      rw [validTag, Bool.and_eq_true] at hvt
      obtain ⟨hne, hall⟩ := hvt
      have hallm : ∀ ch ∈ t.data, nameChar ch = true := fun ch hc =>
        List.all_eq_true.mp hall ch hc
      have hne2 : t.data ≠ [] := by
        intro hh
        rw [hh] at hne
        simp at hne
      have hie : t.data.isEmpty = false := by
        rcases hh : t.data with _ | _
        · exact absurd hh hne2
        · rfl
      rw [serElem]
      by_cases hcond : ((x.getD "").data.isEmpty && c.isEmpty) = true
      · rw [if_pos hcond]
        rw [Bool.and_eq_true] at hcond
        have hcnil : c = [] := by
          rcases c with _ | _
          · rfl
          · simp at hcond
        have hxnone : x = none := by
          rcases hx : x with _ | s
          · rfl
          · rw [hx] at htx
            obtain ⟨h1, _⟩ := hcond
            rw [hx] at h1
            rw [textOk] at htx
            simp at h1 htx
            exact absurd h1 (by simp [htx])
        subst hcnil
        subst hxnone
        have hinput : ('<' :: (t.data ++ ['/', '>'])) ++ rest
            = '<' :: (t.data ++ '/' :: '>' :: rest) := by
          simp
        rw [hinput]
        have htw : (t.data ++ '/' :: '>' :: rest).takeWhile nameChar = t.data :=
          takeWhile_append_stop _ _ _ _ hallm (by decide)
        have hdw : (t.data ++ '/' :: '>' :: rest).dropWhile nameChar
            = '/' :: '>' :: rest :=
          dropWhile_append_stop _ _ _ _ hallm (by decide)
        rw [parseElem.eq_def]
        simp only [htw, hdw, hie]
        rfl
      · rw [if_neg hcond]
        have hmc : mChildren c ≤ fuel := by
          rw [mElem] at hm
          omega
        simp only [List.cons_append, List.append_assoc, List.nil_append]
        have htw : (t.data ++ '>' :: (escList (x.getD "").data ++
            (serChildren c ++ '<' :: '/' :: (t.data ++ '>' :: rest)))).takeWhile
              nameChar = t.data :=
          takeWhile_append_stop _ _ _ _ hallm (by decide)
        have hdw : (t.data ++ '>' :: (escList (x.getD "").data ++
            (serChildren c ++ '<' :: '/' :: (t.data ++ '>' :: rest)))).dropWhile
              nameChar
            = '>' :: (escList (x.getD "").data ++
              (serChildren c ++ '<' :: '/' :: (t.data ++ '>' :: rest))) :=
          dropWhile_append_stop _ _ _ _ hallm (by decide)
        obtain ⟨r0, hr0⟩ :=
          serChildren_lt_head c hwc ('/' :: (t.data ++ '>' :: rest))
        have hpt := parseText_escList (x.getD "").data r0
        rw [← hr0] at hpt
        have hel := ihL c (t.data ++ '>' :: rest) hwc hmc
        have hexp : expectChars ('<' :: '/' :: (t.data ++ ['>']))
            ('<' :: '/' :: (t.data ++ '>' :: rest)) = some rest := by
          have h := expectChars_append ('<' :: '/' :: (t.data ++ ['>'])) rest
          simpa using h
        have htext : (if (x.getD "").data.isEmpty then none
            else some (⟨(x.getD "").data⟩ : String)) = x := by
          rcases hx : x with _ | s
          · rfl
          · rw [hx, textOk] at htx
            have hse : s.data.isEmpty = false := by simpa using htx
            show (if s.data.isEmpty then none
              else some (⟨s.data⟩ : String)) = some s
            rw [hse]
            rfl
        rw [parseElem.eq_def]
        simp only [htw, hdw, hie, hpt, hel, hexp, htext]
        rfl
    · rintro (_ | ⟨e, es⟩) r hwf hm
      · rw [serChildren]
        simp only [List.nil_append]
        rw [parseElems.eq_def]
        simp
      · obtain ⟨he, hes⟩ := wfChildren_parts e es hwf
        have hme : mElem e ≤ fuel := by
          rw [mChildren] at hm
          have := mChildren_pos es
          omega
        have hmes : mChildren es ≤ fuel := by
          rw [mChildren] at hm
          have := mElem_pos e
          omega
        obtain ⟨hd, tl, hse, hnc⟩ := serElem_shape e he
        have hnd : hd ≠ '/' := by
          intro hh
          rw [hh] at hnc
          exact absurd hnc (by decide)
        rw [serChildren]
        simp only [List.append_assoc]
        rw [parseElems.eq_def]
        have htake : ((serElem e ++ (serChildren es ++ '<' :: '/' :: r)).take 2
            = ['<', '/']) = False := by
          rw [hse]
          simp [hnd]
        simp only [htake, if_false,
          ihE e (serChildren es ++ '<' :: '/' :: r) he hme, ihL es r hes hmes]

/-- Claim C6: re-parsing the string the serializer produces for a parsed
element — valid tags, no explicit empty text — reconstructs exactly the
element's tag, text and children structure, whatever the diagnostic
flag. -/
theorem C6_serializer_round_trip (e : XElem) (pprn : Bool)
    (h : wfElem e = true) :
    parseXml (get_xml_str e pprn).2 = some e := by
  have hb := mElem_le e h
  have hp := (parse_ser ((serElem e).length + 1)).1 e [] h (by omega)
  rw [List.append_nil] at hp
  have hx : parseXml ⟨serElem e⟩
      = match parseElem ((serElem e).length + 1) (serElem e) with
        | some (root, []) => some root
        | _ => none := rfl
  show parseXml ⟨serElem e⟩ = some e
  rw [hx, hp]

/-- Claim C6 witness: round trip of the tree of the spec's fetch example,
`configure` holding one child `x` with text `1`. -/
theorem C6_serializer_round_trip_witness :
    parseXml (get_xml_str (.mk "configure" none [.mk "x" (some "1") []])
        false).2
      = some (.mk "configure" none [.mk "x" (some "1") []]) :=
  C6_serializer_round_trip (.mk "configure" none [.mk "x" (some "1") []])
    false (by simp [wfElem, wfChildren, validTag, textOk, nameChar, isPySpace])

end Cndev
